import Mathlib

/-!
# Verification of the EasierLightNovel Annotation & Reading-State Engine

A shallow embedding, in Lean 4, of the core reader logic of the repository:

* the highlight index (`buildHighlightMap` and the reader-store actions
  around it, from the reader store module),
* the context-window extractor (`collectHighlightText`,
  `buildContextFromSentences`, `splitIntoSentences`, `stringifySegment`
  from the reader sidebar module),
* the scroll-position restoration loop (`tryRestore` from
  `useScrollProgress.ts`),
* the reading-progress flush (`flushProgress` from `ContentCanvas.tsx`).

Modelling conventions:

* JavaScript strings are modelled as `List Char` (`JStr`), one element per
  code point; `String.length`/`slice`/`trim`/`indexOf` become the
  corresponding list operations.
* A JavaScript `Map` is modelled as an association list in which each
  `map.set(k, v)` conses `(k, v)` on the front and `get` returns the first
  (i.e. most recent) binding, which is extensionally the same `get`/`has`
  behaviour as the mutating `Map`.
* JavaScript numbers used as indices/counts are modelled as `Nat`
  (the source only ever produces non-negative integers for them); pixel
  and ratio quantities are modelled as `ℚ`.
* Fields of the TypeScript interfaces that none of the embedded functions
  read (readings, part-of-speech tags, timestamps, image sources, …) are
  omitted from the corresponding structures.
-/

/-- JavaScript string, as a list of code points. -/
abbrev JStr := List Char

/-! ## Decimal rendering of a natural number

The template literal `` `${segIdx}-${tokIdx}` `` renders its numeric
arguments in decimal.  `natDigits` is that decimal rendering (fuel-based so
that it reduces definitionally); `digitsVal` is its inverse, used to prove
the rendering injective. -/

/-- Decimal digits of `n`, most significant first; `fuel` bounds the
recursion depth (any `fuel > n` is enough). -/
def natDigitsAux (fuel : Nat) (n : Nat) : List Char :=
  match fuel with
  | 0 => []
  | fuel + 1 =>
    if n < 10 then [Nat.digitChar n]
    else natDigitsAux fuel (n / 10) ++ [Nat.digitChar (n % 10)]

/-- Decimal rendering of a natural number, e.g. `natDigits 12 = ['1','2']`. -/
def natDigits (n : Nat) : List Char := natDigitsAux (n + 1) n

/-- Numeric value of a decimal digit character. -/
def digitVal (c : Char) : Nat := c.toNat - 48

/-- Value of a most-significant-first digit list. -/
def digitsVal (l : List Char) : Nat := l.foldl (fun acc c => acc * 10 + digitVal c) 0

theorem digitVal_digitChar : ∀ d : Nat, d < 10 → digitVal (Nat.digitChar d) = d := by
  decide

theorem digitChar_ne_dash : ∀ d : Nat, d < 10 → Nat.digitChar d ≠ '-' := by
  decide

theorem digitsVal_append_singleton (l : List Char) (c : Char) :
    digitsVal (l ++ [c]) = digitsVal l * 10 + digitVal c := by
  simp [digitsVal, List.foldl_append]

theorem digitsVal_natDigitsAux :
    ∀ fuel n : Nat, n < fuel → digitsVal (natDigitsAux fuel n) = n := by
  intro fuel
  induction fuel with
  | zero => intro n h; omega
  | succ f ih =>
    intro n h
    rw [natDigitsAux]
    by_cases h10 : n < 10
    · simp only [if_pos h10]
      simpa [digitsVal] using digitVal_digitChar n h10
    · simp only [if_neg h10]
      rw [digitsVal_append_singleton, ih (n / 10) (by omega),
        digitVal_digitChar (n % 10) (Nat.mod_lt n (by omega))]
      omega

theorem digitsVal_natDigits (n : Nat) : digitsVal (natDigits n) = n :=
  digitsVal_natDigitsAux (n + 1) n (Nat.lt_succ_self n)

theorem natDigits_injective : Function.Injective natDigits := by
  intro a b h
  have := digitsVal_natDigits a
  rw [h, digitsVal_natDigits] at this
  omega

theorem dash_not_mem_natDigitsAux :
    ∀ fuel n : Nat, '-' ∉ natDigitsAux fuel n := by
  intro fuel
  induction fuel with
  | zero => intro n; simp [natDigitsAux]
  | succ f ih =>
    intro n
    rw [natDigitsAux]
    by_cases h10 : n < 10
    · simp only [if_pos h10, List.mem_singleton]
      exact fun h => digitChar_ne_dash n h10 h.symm
    · simp only [if_neg h10, List.mem_append, List.mem_singleton]
      rintro (h | h)
      · exact ih (n / 10) h
      · exact digitChar_ne_dash (n % 10) (Nat.mod_lt n (by omega)) h.symm

theorem dash_not_mem_natDigits (n : Nat) : '-' ∉ natDigits n :=
  dash_not_mem_natDigitsAux (n + 1) n

/-- Splitting a list at a separator character that occurs in neither prefix
is unambiguous. -/
theorem append_sep_inj :
    ∀ (a₁ : List Char) (b₁ : List Char) (a₂ : List Char) (b₂ : List Char),
      '-' ∉ a₁ → '-' ∉ a₂ → a₁ ++ '-' :: b₁ = a₂ ++ '-' :: b₂ →
      a₁ = a₂ ∧ b₁ = b₂ := by
  intro a₁
  induction a₁ with
  | nil =>
    intro b₁ a₂ b₂ _ h₂ h
    cases a₂ with
    | nil => simpa using h
    | cons c a₂ =>
      simp only [List.nil_append, List.cons_append, List.cons.injEq] at h
      exact absurd (h.1 ▸ List.mem_cons_self c a₂) h₂
  | cons c a₁ ih =>
    intro b₁ a₂ b₂ h₁ h₂ h
    cases a₂ with
    | nil =>
      simp only [List.cons_append, List.nil_append, List.cons.injEq] at h
      exact absurd (h.1.symm ▸ List.mem_cons_self c a₁) h₁
    | cons c₂ a₂ =>
      simp only [List.cons_append, List.cons.injEq] at h
      obtain ⟨rfl, h⟩ := h
      have := ih b₁ a₂ b₂ (fun hm => h₁ (List.mem_cons_of_mem _ hm))
        (fun hm => h₂ (List.mem_cons_of_mem _ hm)) h
      exact ⟨by rw [this.1], this.2⟩

/-! ## Data model (types/chapter.ts, readerStore.ts)

`TokenData` keeps only the fields the embedded functions read: the surface
form `s` and the optional gap-before flag `gap` (absent ⇒ `false`).
`ContentSegment` is either a text segment with an optional token list or an
image segment.  `ChapterResponse` keeps the chapter index, segments and the
optional highlight list. -/

structure TokenData where
  s : JStr
  gap : Bool
deriving DecidableEq, Repr

inductive ContentSegment where
  | text (tokens : Option (List TokenData))
  | image
deriving DecidableEq, Repr

/-- A confirmed highlight of the current chapter (`ChapterHighlightData`). -/
structure ChapterHighlightData where
  id : Nat
  start_segment_index : Nat
  start_token_idx : Nat
  end_segment_index : Nat
  end_token_idx : Nat
  style_category : JStr
deriving DecidableEq, Repr

/-- A not-yet-confirmed highlight (`PendingHighlight` in readerStore.ts). -/
structure PendingHighlight where
  tempId : JStr
  start_segment_index : Nat
  start_token_idx : Nat
  end_segment_index : Nat
  end_token_idx : Nat
  style_category : JStr
  book_id : JStr
  chapter_index : Nat
  selected_text : JStr
deriving DecidableEq, Repr

structure ChapterResponse where
  index : Nat
  segments : List ContentSegment
  highlights : Option (List ChapterHighlightData)
deriving DecidableEq, Repr

/-! ## The highlight map (readerStore.ts)

`HighlightMap` is `Map<string, string>`; we represent it as an association
list where `set` conses the new binding on the front and `get` takes the
first binding of the key, matching the mutating map's `get`. -/

abbrev HighlightMap := List (JStr × JStr)

/-- `map.get(k)` — the most recent binding of `k`. -/
def mapGet (m : HighlightMap) (k : JStr) : Option JStr :=
  (m.find? (fun e => e.1 == k)).map Prod.snd

/-- `getTokenKey` — the template literal `` `${segIdx}-${tokIdx}` ``. -/
def getTokenKey (segIdx tokIdx : Nat) : JStr :=
  natDigits segIdx ++ '-' :: natDigits tokIdx

theorem getTokenKey_inj {s₁ t₁ s₂ t₂ : Nat}
    (h : getTokenKey s₁ t₁ = getTokenKey s₂ t₂) : s₁ = s₂ ∧ t₁ = t₂ := by
  have := append_sep_inj (natDigits s₁) (natDigits t₁) (natDigits s₂) (natDigits t₂)
    (dash_not_mem_natDigits s₁) (dash_not_mem_natDigits s₂) h
  exact ⟨natDigits_injective this.1, natDigits_injective this.2⟩

/-- The per-segment token counts computed at the top of `buildHighlightMap`:
`segmentTokenCounts.get(idx)` is the token count of segment `idx` when
`segments` was provided and segment `idx` is a text segment with a token
list, and is absent otherwise. -/
def segmentTokenCounts (segments : Option (List ContentSegment)) : Nat → Option Nat :=
  fun idx =>
    match segments with
    | none => none
    | some segs =>
      match segs.get? idx with
      | some (ContentSegment.text (some tokens)) => some tokens.length
      | _ => none

/-- The inner helper `processHighlight` of `buildHighlightMap`: for
`s = startSeg .. endSeg`, the token loop runs from `startTok` (first
segment only, else `0`) to `endTok` (last segment only, else the segment's
known token count, or the sentinel `9999`), both bounds inclusive, and
writes every visited address into the map. -/
def processHighlight (counts : Nat → Option Nat)
    (startSeg startTok endSeg endTok : Nat) (style : JStr)
    (map : HighlightMap) : HighlightMap :=
  (List.range' startSeg (endSeg + 1 - startSeg)).foldl (fun map s =>
    let startT := if s = startSeg then startTok else 0
    let endT := if s = endSeg then endTok else (counts s).getD 9999
    (List.range' startT (endT + 1 - startT)).foldl
      (fun map t => (getTokenKey s t, style) :: map) map) map

/-- `buildHighlightMap`: process the confirmed highlights in order, then the
pending highlights in order, into a fresh map. -/
def buildHighlightMap (highlights : List ChapterHighlightData)
    (pendingHighlights : List PendingHighlight)
    (segments : Option (List ContentSegment)) : HighlightMap :=
  let counts := segmentTokenCounts segments
  let m : HighlightMap := []
  let m := highlights.foldl (fun m h =>
    processHighlight counts h.start_segment_index h.start_token_idx
      h.end_segment_index h.end_token_idx h.style_category m) m
  let m := pendingHighlights.foldl (fun m h =>
    processHighlight counts h.start_segment_index h.start_token_idx
      h.end_segment_index h.end_token_idx h.style_category m) m
  m

/-! ## Characterisation of the written addresses -/

/-- Lexicographic order on token addresses `(segmentIndex, tokenIndex)`. -/
def lexLE (p q : Nat × Nat) : Prop := p.1 < q.1 ∨ (p.1 = q.1 ∧ p.2 ≤ q.2)

instance (p q : Nat × Nat) : Decidable (lexLE p q) := by
  unfold lexLE; infer_instance

/-- `writesAddr counts a b c d s t` holds exactly when the loops of
`processHighlight` for the range `(a,b)–(c,d)` visit the address `(s,t)`. -/
def writesAddr (counts : Nat → Option Nat) (a b c d s t : Nat) : Prop :=
  a ≤ s ∧ s ≤ c ∧ (if s = a then b else 0) ≤ t ∧
    t ≤ (if s = c then d else (counts s).getD 9999)

instance (counts : Nat → Option Nat) (a b c d s t : Nat) :
    Decidable (writesAddr counts a b c d s t) := by
  unfold writesAddr; infer_instance

theorem mem_range'_le {a c s : Nat} : s ∈ List.range' a (c + 1 - a) ↔ a ≤ s ∧ s ≤ c := by
  rw [List.mem_range'_1]; omega

/-- A fold whose step conses fresh entries in front of the map factors
through the empty map. -/
theorem foldl_out {α : Type} (f : HighlightMap → α → HighlightMap)
    (hf : ∀ m x, f m x = f [] x ++ m) :
    ∀ (l : List α) (m : HighlightMap), l.foldl f m = l.foldl f [] ++ m := by
  intro l
  induction l with
  | nil => simp
  | cons x l ih =>
    intro m
    rw [List.foldl_cons, List.foldl_cons, ih (f m x), ih (f [] x), hf m x,
      List.append_assoc]

theorem mem_foldl_out {α : Type} (f : HighlightMap → α → HighlightMap)
    (hf : ∀ m x, f m x = f [] x ++ m) :
    ∀ (l : List α) (e : JStr × JStr), e ∈ l.foldl f [] ↔ ∃ x ∈ l, e ∈ f [] x := by
  intro l
  induction l with
  | nil => simp
  | cons x l ih =>
    intro e
    rw [List.foldl_cons, foldl_out f hf l (f [] x), List.mem_append]
    simp only [List.mem_cons]
    constructor
    · rintro (h | h)
      · obtain ⟨y, hy, he⟩ := (ih e).1 h
        exact ⟨y, Or.inr hy, he⟩
      · exact ⟨x, Or.inl rfl, h⟩
    · rintro ⟨y, (rfl | hy), he⟩
      · exact Or.inr he
      · exact Or.inl ((ih e).2 ⟨y, hy, he⟩)

theorem processHighlight_out (counts : Nat → Option Nat)
    (a b c d : Nat) (sty : JStr) (m : HighlightMap) :
    processHighlight counts a b c d sty m =
      processHighlight counts a b c d sty [] ++ m := by
  unfold processHighlight
  apply foldl_out
  intro m s
  apply foldl_out
  intro m t
  rfl

theorem mem_processHighlight (counts : Nat → Option Nat)
    (a b c d : Nat) (sty : JStr) (e : JStr × JStr) :
    e ∈ processHighlight counts a b c d sty [] ↔
      ∃ s t, writesAddr counts a b c d s t ∧ e = (getTokenKey s t, sty) := by
  unfold processHighlight
  rw [mem_foldl_out _ (fun m s => by apply foldl_out; intro m t; rfl)]
  constructor
  · rintro ⟨s, hs, he⟩
    rw [mem_foldl_out _ (fun m t => rfl)] at he
    obtain ⟨t, ht, he⟩ := he
    rw [List.mem_singleton] at he
    rw [mem_range'_le] at hs
    rw [mem_range'_le] at ht
    exact ⟨s, t, ⟨hs.1, hs.2, ht.1, ht.2⟩, he⟩
  · rintro ⟨s, t, ⟨h1, h2, h3, h4⟩, rfl⟩
    refine ⟨s, mem_range'_le.2 ⟨h1, h2⟩, ?_⟩
    rw [mem_foldl_out _ (fun m t => rfl)]
    exact ⟨t, mem_range'_le.2 ⟨h3, h4⟩, List.mem_singleton.2 rfl⟩

theorem mapGet_processHighlight_writes (counts : Nat → Option Nat)
    (a b c d : Nat) (sty : JStr) (m : HighlightMap) (s t : Nat)
    (h : writesAddr counts a b c d s t) :
    mapGet (processHighlight counts a b c d sty m) (getTokenKey s t) = some sty := by
  rw [processHighlight_out]
  have hmem : (getTokenKey s t, sty) ∈ processHighlight counts a b c d sty [] :=
    (mem_processHighlight counts a b c d sty _).2 ⟨s, t, h, rfl⟩
  have hsome : (List.find? (fun e => e.1 == getTokenKey s t)
      (processHighlight counts a b c d sty [])).isSome := by
    rw [List.find?_isSome]
    exact ⟨_, hmem, by simp⟩
  obtain ⟨e, he⟩ := Option.isSome_iff_exists.1 hsome
  have heq : e.2 = sty := by
    have := List.mem_of_find?_eq_some he
    obtain ⟨s', t', _, rfl⟩ := (mem_processHighlight counts a b c d sty e).1 this
    rfl
  rw [mapGet, List.find?_append, he]
  simp [heq]

theorem mapGet_processHighlight_not_writes (counts : Nat → Option Nat)
    (a b c d : Nat) (sty : JStr) (m : HighlightMap) (k : JStr)
    (h : ∀ s t, writesAddr counts a b c d s t → k ≠ getTokenKey s t) :
    mapGet (processHighlight counts a b c d sty m) k = mapGet m k := by
  rw [processHighlight_out]
  have hnone : (List.find? (fun e => e.1 == k)
      (processHighlight counts a b c d sty [])) = none := by
    rw [List.find?_eq_none]
    intro e he
    obtain ⟨s', t', hw, rfl⟩ := (mem_processHighlight counts a b c d sty e).1 he
    simpa using fun hk => h s' t' hw hk.symm
  rw [mapGet, List.find?_append, hnone, mapGet]
  rfl

/-- The range/style data `buildHighlightMap` passes to `processHighlight`
for one highlight (confirmed or pending). -/
structure HLSpec where
  startSeg : Nat
  startTok : Nat
  endSeg : Nat
  endTok : Nat
  style : JStr
deriving DecidableEq, Repr

def specOfConfirmed (h : ChapterHighlightData) : HLSpec :=
  ⟨h.start_segment_index, h.start_token_idx, h.end_segment_index,
    h.end_token_idx, h.style_category⟩

def specOfPending (h : PendingHighlight) : HLSpec :=
  ⟨h.start_segment_index, h.start_token_idx, h.end_segment_index,
    h.end_token_idx, h.style_category⟩

/-- Processing order of `buildHighlightMap`: all confirmed highlights in
list order, then all pending highlights in list order. -/
def processedSpecs (hs : List ChapterHighlightData) (ps : List PendingHighlight) :
    List HLSpec :=
  hs.map specOfConfirmed ++ ps.map specOfPending

def runSpec (counts : Nat → Option Nat) (m : HighlightMap) (r : HLSpec) :
    HighlightMap :=
  processHighlight counts r.startSeg r.startTok r.endSeg r.endTok r.style m

theorem buildHighlightMap_eq_foldSpecs (hs : List ChapterHighlightData)
    (ps : List PendingHighlight) (segments : Option (List ContentSegment)) :
    buildHighlightMap hs ps segments =
      (processedSpecs hs ps).foldl (runSpec (segmentTokenCounts segments)) [] := by
  unfold buildHighlightMap processedSpecs
  rw [List.foldl_append, List.foldl_map, List.foldl_map]
  rfl

theorem writesAddr_of_runSpec_mem (counts : Nat → Option Nat) (r : HLSpec)
    (m : HighlightMap) (e : JStr × JStr) (he : e ∈ runSpec counts m r) (hm : e ∉ m) :
    ∃ s t, writesAddr counts r.startSeg r.startTok r.endSeg r.endTok s t ∧
      e = (getTokenKey s t, r.style) := by
  rw [runSpec, processHighlight_out, List.mem_append] at he
  rcases he with he | he
  · exact (mem_processHighlight counts _ _ _ _ _ e).1 he
  · exact absurd he hm

theorem mapGet_foldSpecs_mono (counts : Nat → Option Nat) (k : JStr) :
    ∀ (specs : List HLSpec) (m : HighlightMap),
      (mapGet m k).isSome → (mapGet (specs.foldl (runSpec counts) m) k).isSome := by
  intro specs
  induction specs with
  | nil => intro m hm; exact hm
  | cons r rest ih =>
    intro m hm
    rw [List.foldl_cons]
    apply ih
    by_cases hw : ∃ s t, writesAddr counts r.startSeg r.startTok r.endSeg r.endTok s t ∧
        k = getTokenKey s t
    · obtain ⟨s, t, hw, rfl⟩ := hw
      rw [runSpec, mapGet_processHighlight_writes counts _ _ _ _ _ m s t hw]
      rfl
    · rw [runSpec, mapGet_processHighlight_not_writes counts _ _ _ _ _ m k
        (fun s t hws hk => hw ⟨s, t, hws, hk⟩)]
      exact hm

theorem mapGet_foldSpecs_isSome (counts : Nat → Option Nat) (s t : Nat) :
    ∀ (specs : List HLSpec) (m : HighlightMap),
      (∃ r ∈ specs, writesAddr counts r.startSeg r.startTok r.endSeg r.endTok s t) →
      (mapGet (specs.foldl (runSpec counts) m) (getTokenKey s t)).isSome := by
  intro specs
  induction specs with
  | nil => rintro m ⟨r, hr, -⟩; exact absurd hr (List.not_mem_nil r)
  | cons r rest ih =>
    rintro m ⟨r', hr', hw⟩
    rw [List.foldl_cons]
    rcases List.mem_cons.1 hr' with rfl | hr'
    · apply mapGet_foldSpecs_mono
      rw [runSpec, mapGet_processHighlight_writes counts _ _ _ _ _ m s t hw]
      rfl
    · exact ih _ ⟨r', hr', hw⟩

theorem mapGet_foldSpecs_congr (counts : Nat → Option Nat) (k : JStr) :
    ∀ (specs : List HLSpec) (m : HighlightMap),
      (∀ r ∈ specs, ∀ s t,
        writesAddr counts r.startSeg r.startTok r.endSeg r.endTok s t →
          k ≠ getTokenKey s t) →
      mapGet (specs.foldl (runSpec counts) m) k = mapGet m k := by
  intro specs
  induction specs with
  | nil => intro m _; rfl
  | cons r rest ih =>
    intro m h
    rw [List.foldl_cons, ih _ (fun r' hr' => h r' (List.mem_cons_of_mem r hr')),
      runSpec, mapGet_processHighlight_not_writes counts _ _ _ _ _ m k
        (h r (List.mem_cons_self r rest))]

/-- The style written last wins: if the final processed range writes the
address, its style is what `get` returns. -/
theorem mapGet_foldSpecs_last (counts : Nat → Option Nat)
    (specs : List HLSpec) (r : HLSpec) (m : HighlightMap) (s t : Nat)
    (hw : writesAddr counts r.startSeg r.startTok r.endSeg r.endTok s t) :
    mapGet ((specs ++ [r]).foldl (runSpec counts) m) (getTokenKey s t) =
      some r.style := by
  rw [List.foldl_append, List.foldl_cons, List.foldl_nil, runSpec,
    mapGet_processHighlight_writes counts _ _ _ _ _ _ s t hw]

/-- Every visited address lies between the range ends in lexicographic
order (with no hypothesis on the range: empty loops are vacuous). -/
theorem lexLE_iff (a b s t : Nat) :
    lexLE (a, b) (s, t) ↔ (a < s ∨ (a = s ∧ b ≤ t)) := Iff.rfl

theorem writesAddr_lex (counts : Nat → Option Nat) {a b c d s t : Nat}
    (h : writesAddr counts a b c d s t) :
    lexLE (a, b) (s, t) ∧ lexLE (s, t) (c, d) := by
  obtain ⟨h1, h2, h3, h4⟩ := h
  rw [lexLE_iff, lexLE_iff]
  constructor
  · split_ifs at h3 with hsa
    · omega
    · omega
  · split_ifs at h4 with hsc
    · omega
    · omega

/-- Conversely, every address of an actual chapter token that lies between
the range ends is visited. -/
theorem writesAddr_of_valid (counts : Nat → Option Nat) {a b c d s t n : Nat}
    (hc : counts s = some n) (ht : t < n)
    (hlo : lexLE (a, b) (s, t)) (hhi : lexLE (s, t) (c, d)) :
    writesAddr counts a b c d s t := by
  rw [lexLE_iff] at hlo hhi
  refine ⟨by omega, by omega, ?_, ?_⟩
  · split_ifs with hsa
    · omega
    · omega
  · split_ifs with hsc
    · omega
    · rw [hc, Option.getD_some]; omega

/-! ## Reader store state and actions (readerStore.ts)

Only the slice of the zustand store that the highlight lifecycle reads and
writes is modelled: the current chapter, the confirmed highlight list, the
pending highlight list, and the derived highlight map. -/

structure ReaderState where
  chapter : Option ChapterResponse
  highlights : List ChapterHighlightData
  pendingHighlights : List PendingHighlight
  highlightMap : HighlightMap
deriving DecidableEq, Repr

/-- `chapter?.highlights ?? []`. -/
def chapterHighlights (chapter : Option ChapterResponse) : List ChapterHighlightData :=
  match chapter with
  | none => []
  | some c => c.highlights.getD []

/-- `chapter?.segments`. -/
def chapterSegments (chapter : Option ChapterResponse) : Option (List ContentSegment) :=
  chapter.map (fun c => c.segments)

/-- `setChapter`: clear the pending highlights of the previous chapter and
rebuild the map from the new chapter's own highlights only. -/
def setChapter (chapter : Option ChapterResponse) (st : ReaderState) : ReaderState :=
  let highlights := chapterHighlights chapter
  { st with
    pendingHighlights := []
    chapter := chapter
    highlights := highlights
    highlightMap := buildHighlightMap highlights [] (chapterSegments chapter) }

def setHighlights (highlights : List ChapterHighlightData) (st : ReaderState) :
    ReaderState :=
  { st with
    highlights := highlights
    highlightMap :=
      buildHighlightMap highlights st.pendingHighlights (chapterSegments st.chapter) }

def addHighlight (highlight : ChapterHighlightData) (st : ReaderState) : ReaderState :=
  let newHighlights := st.highlights ++ [highlight]
  { st with
    highlights := newHighlights
    highlightMap :=
      buildHighlightMap newHighlights st.pendingHighlights (chapterSegments st.chapter) }

def addHighlightOptimistic (highlight : PendingHighlight) (st : ReaderState) :
    ReaderState :=
  let newPending := st.pendingHighlights ++ [highlight]
  { st with
    pendingHighlights := newPending
    highlightMap :=
      buildHighlightMap st.highlights newPending (chapterSegments st.chapter) }

def removeHighlight (id : Nat) (st : ReaderState) : ReaderState :=
  let newHighlights := st.highlights.filter (fun h => h.id != id)
  { st with
    highlights := newHighlights
    highlightMap :=
      buildHighlightMap newHighlights st.pendingHighlights (chapterSegments st.chapter) }

def removePendingHighlight (tempId : JStr) (st : ReaderState) : ReaderState :=
  let newPending := st.pendingHighlights.filter (fun h => h.tempId != tempId)
  { st with
    pendingHighlights := newPending
    highlightMap :=
      buildHighlightMap st.highlights newPending (chapterSegments st.chapter) }

/-! ## The annotation lifecycle (SelectionMenu.tsx)

`handleHighlight` applies the pending highlight optimistically, issues the
create request, and on the server's answer either promotes the pending
entry to a confirmed one (success) or removes it (failure).
`handleDeleteHighlight` removes the confirmed highlight optimistically and
never rolls back. -/

/-- The confirmed record `handleHighlight` inserts from the server response:
the selection's own coordinates with the server-assigned id and style. -/
def confirmedFromServer (ph : PendingHighlight) (resultId : Nat)
    (resultStyle : JStr) : ChapterHighlightData :=
  ⟨resultId, ph.start_segment_index, ph.start_token_idx, ph.end_segment_index,
    ph.end_token_idx, resultStyle⟩

/-- Success branch of `handleHighlight` after the optimistic step `st1`:
`addHighlight` with the server record, then `removePendingHighlight`. -/
def handleHighlightSuccess (st1 : ReaderState) (ph : PendingHighlight)
    (resultId : Nat) (resultStyle : JStr) : ReaderState :=
  removePendingHighlight ph.tempId
    (addHighlight (confirmedFromServer ph resultId resultStyle) st1)

/-- Failure branch of `handleHighlight`: roll the pending entry back. -/
def handleHighlightFailure (st1 : ReaderState) (ph : PendingHighlight) : ReaderState :=
  removePendingHighlight ph.tempId st1

/-- Trace of `handleDeleteHighlight`: the state after the optimistic
removal, and the id of the delete request issued afterwards. -/
structure DeleteTrace where
  optimisticState : ReaderState
  request : Nat
deriving DecidableEq, Repr

def handleDeleteHighlight (id : Nat) (st : ReaderState) : DeleteTrace :=
  ⟨removeHighlight id st, id⟩

/-- Reconciliation of the delete request: the catch branch does nothing, so
the state is the optimistic one whether the request succeeded or failed. -/
def settleDelete (tr : DeleteTrace) (requestSucceeds : Bool) : ReaderState :=
  tr.optimisticState

/-- A range specification covers an address when the address lies between
its ends in lexicographic order. -/
def specCovers (r : HLSpec) (s t : Nat) : Prop :=
  lexLE (r.startSeg, r.startTok) (s, t) ∧ lexLE (s, t) (r.endSeg, r.endTok)

instance (r : HLSpec) (s t : Nat) : Decidable (specCovers r s t) := by
  unfold specCovers; infer_instance

/-! ## Concrete scenario of §8: three text segments of five tokens each -/

def mkToken (c : Char) : TokenData := ⟨[c], false⟩

def c1Segments : List ContentSegment :=
  List.replicate 3 (ContentSegment.text (some (List.replicate 5 (mkToken 'x'))))

def c1Highlight : ChapterHighlightData := ⟨1, 0, 3, 1, 2, "yellow".data⟩

def c1Map : HighlightMap := buildHighlightMap [c1Highlight] [] (some c1Segments)

theorem mapGet_isSome_iff (m : HighlightMap) (k : JStr) :
    (mapGet m k).isSome ↔ k ∈ m.map Prod.fst := by
  have h1 : (mapGet m k).isSome = (List.find? (fun e => e.1 == k) m).isSome := by
    rw [mapGet]; cases List.find? (fun e => e.1 == k) m <;> rfl
  rw [h1, List.find?_isSome, List.mem_map]
  constructor
  · rintro ⟨e, he, hk⟩
    exact ⟨e, he, by simpa using hk⟩
  · rintro ⟨e, he, hk⟩
    exact ⟨e, he, by simpa using hk⟩

/-- C1, counterexample: on the §8 scenario the map also contains the key of
address `(0,5)` — one past the last token of segment 0 — because for a
non-final segment the token loop in `processHighlight` runs up to the
segment's token count inclusive. -/
theorem c1_counterexample :
    (mapGet c1Map (getTokenKey 0 5)).isSome = true ∧
      getTokenKey 0 5 ∉ [getTokenKey 0 3, getTokenKey 0 4, getTokenKey 1 0,
        getTokenKey 1 1, getTokenKey 1 2] := by
  decide

/-- C1, amended: on the §8 scenario (3 text segments of 5 tokens each,
highlight from `(0,3)` to `(1,2)`) the key set of `buildHighlightMap` is
exactly `{(0,3), (0,4), (0,5), (1,0), (1,1), (1,2)}` — the five claimed
addresses plus the out-of-range `(0,5)`. -/
theorem c1_amended (k : JStr) :
    (mapGet c1Map k).isSome ↔
      k ∈ [getTokenKey 0 3, getTokenKey 0 4, getTokenKey 0 5, getTokenKey 1 0,
        getTokenKey 1 1, getTokenKey 1 2] := by
  have hkeys : c1Map.map Prod.fst = [getTokenKey 1 2, getTokenKey 1 1,
      getTokenKey 1 0, getTokenKey 0 5, getTokenKey 0 4, getTokenKey 0 3] := by
    decide
  rw [mapGet_isSome_iff, hkeys]
  simp only [List.mem_cons, List.not_mem_nil, or_false]
  tauto

/-! ## Out-of-bounds behaviour of the index build -/

def c3Segments : List ContentSegment :=
  [ContentSegment.text (some [mkToken 'x', mkToken 'y'])]

/-- A highlight whose end token index (5) lies beyond the only segment's
token count (2), as after a chapter re-parse. -/
def c3Highlight : ChapterHighlightData := ⟨1, 0, 0, 0, 5, "green".data⟩

def c3Map : HighlightMap := buildHighlightMap [c3Highlight] [] (some c3Segments)

/-- C3, counterexample: the build does not skip addresses outside the known
token bounds — segment 0 has 2 tokens, yet the out-of-range address `(0,4)`
is written into the map. -/
theorem c3_counterexample :
    (mapGet c3Map (getTokenKey 0 4)).isSome = true ∧
      segmentTokenCounts (some c3Segments) 0 = some 2 := by
  decide

/-- Membership in the fold over the processed ranges. -/
theorem mem_foldSpecs (counts : Nat → Option Nat) (specs : List HLSpec)
    (e : JStr × JStr) :
    e ∈ specs.foldl (runSpec counts) [] ↔
      ∃ r ∈ specs, ∃ s t,
        writesAddr counts r.startSeg r.startTok r.endSeg r.endTok s t ∧
          e = (getTokenKey s t, r.style) := by
  rw [mem_foldl_out (runSpec counts)
    (fun m r => by rw [runSpec, processHighlight_out]; rfl) specs e]
  constructor
  · rintro ⟨r, hr, he⟩
    exact ⟨r, hr, (mem_processHighlight counts _ _ _ _ _ e).1 he⟩
  · rintro ⟨r, hr, hw⟩
    exact ⟨r, hr, (mem_processHighlight counts _ _ _ _ _ e).2 hw⟩

/-- C3, amended: `buildHighlightMap` is a total function (it cannot throw),
and its entries are exactly the addresses visited by the loops of
`processHighlight` for the processed ranges — the loops are not clipped to
the known segment/token bounds, so out-of-range addresses are written
rather than skipped. -/
theorem c3_amended (hs : List ChapterHighlightData) (ps : List PendingHighlight)
    (segments : Option (List ContentSegment)) (e : JStr × JStr) :
    e ∈ buildHighlightMap hs ps segments ↔
      ∃ r ∈ processedSpecs hs ps, ∃ s t,
        writesAddr (segmentTokenCounts segments) r.startSeg r.startTok
          r.endSeg r.endTok s t ∧
          e = (getTokenKey s t, r.style) := by
  rw [buildHighlightMap_eq_foldSpecs, mem_foldSpecs]

/-- C6: for a range with `start ≤ end` (lexicographically), every address
key written by `processHighlight` — including keys produced with the
`9999` sentinel when a segment's token count is unknown — is the key of an
address lying between the range ends in lexicographic order. -/
theorem c6_processHighlight_writes_in_range (counts : Nat → Option Nat)
    (a b c d : Nat) (sty : JStr) (m : HighlightMap) (e : JStr × JStr)
    (hrange : lexLE (a, b) (c, d))
    (he : e ∈ processHighlight counts a b c d sty m) (hm : e ∉ m) :
    ∃ s t, e.1 = getTokenKey s t ∧ lexLE (a, b) (s, t) ∧ lexLE (s, t) (c, d) := by
  rw [processHighlight_out, List.mem_append] at he
  rcases he with he | he
  · obtain ⟨s, t, hw, rfl⟩ := (mem_processHighlight counts a b c d sty e).1 he
    exact ⟨s, t, rfl, writesAddr_lex counts hw⟩
  · exact absurd he hm

/-- C6, witness: for the range `(0,1)–(0,3)` with no segment data, the
entry written for token 2 is in range. -/
theorem c6_witness :
    lexLE (0, 1) (0, 3) ∧
      ∃ s t, ((getTokenKey 0 2, "yellow".data) : JStr × JStr).1 = getTokenKey s t ∧
        lexLE (0, 1) (s, t) ∧ lexLE (s, t) (0, 3) :=
  ⟨by decide,
    c6_processHighlight_writes_in_range (segmentTokenCounts none) 0 1 0 3
      "yellow".data [] (getTokenKey 0 2, "yellow".data) (by decide)
      (by decide) (by decide)⟩

/-! ## C4: the optimistic create lifecycle -/

theorem processedSpecs_append_pending (hs : List ChapterHighlightData)
    (ps : List PendingHighlight) (ph : PendingHighlight) :
    processedSpecs hs (ps ++ [ph]) = processedSpecs hs ps ++ [specOfPending ph] := by
  simp [processedSpecs, List.map_append, List.append_assoc]

theorem pending_filter_fresh (ps : List PendingHighlight) (ph : PendingHighlight)
    (hfresh : ∀ q ∈ ps, q.tempId ≠ ph.tempId) :
    (ps ++ [ph]).filter (fun q => q.tempId != ph.tempId) = ps := by
  rw [List.filter_append]
  have h1 : ps.filter (fun q => q.tempId != ph.tempId) = ps :=
    List.filter_eq_self.2 (fun q hq => bne_iff_ne.2 (hfresh q hq))
  have h2 : [ph].filter (fun q => q.tempId != ph.tempId) = [] := by simp
  rw [h1, h2, List.append_nil]

theorem counts_of_get (chapter : Option ChapterResponse) (ch : ChapterResponse)
    (toks : List TokenData) (s : Nat) (hch : chapter = some ch)
    (hseg : ch.segments.get? s = some (ContentSegment.text (some toks))) :
    segmentTokenCounts (chapterSegments chapter) s = some toks.length := by
  subst hch
  rw [List.get?_eq_getElem?] at hseg
  simp [chapterSegments, segmentTokenCounts, hseg]

/-- C4: for a valid chapter address `(s,t)` lying inside the selection
range, (1) after the optimistic step of `handleHighlight` the address is in
the index with the pending highlight's style; (2) after `addHighlight` with
the server record and (3) after the full success path the address is still
covered — there is no state in which neither the pending nor the confirmed
entry is present; and (4) after the failure rollback the address is absent
whenever no other range covers it. -/
theorem c4_optimistic_lifecycle
    (st : ReaderState) (ph : PendingHighlight) (resultId : Nat) (resultStyle : JStr)
    (ch : ChapterResponse) (toks : List TokenData) (s t : Nat)
    (hch : st.chapter = some ch)
    (hseg : ch.segments.get? s = some (ContentSegment.text (some toks)))
    (ht : t < toks.length)
    (hlo : lexLE (ph.start_segment_index, ph.start_token_idx) (s, t))
    (hhi : lexLE (s, t) (ph.end_segment_index, ph.end_token_idx))
    (hfresh : ∀ q ∈ st.pendingHighlights, q.tempId ≠ ph.tempId) :
    mapGet (addHighlightOptimistic ph st).highlightMap (getTokenKey s t)
        = some ph.style_category ∧
    (mapGet (addHighlight (confirmedFromServer ph resultId resultStyle)
        (addHighlightOptimistic ph st)).highlightMap (getTokenKey s t)).isSome ∧
    (mapGet (handleHighlightSuccess (addHighlightOptimistic ph st) ph resultId
        resultStyle).highlightMap (getTokenKey s t)).isSome ∧
    ((∀ r ∈ processedSpecs st.highlights st.pendingHighlights, ¬ specCovers r s t) →
      mapGet (handleHighlightFailure (addHighlightOptimistic ph st) ph).highlightMap
        (getTokenKey s t) = none) := by
  have hcounts := counts_of_get st.chapter ch toks s hch hseg
  have hw : writesAddr (segmentTokenCounts (chapterSegments st.chapter))
      ph.start_segment_index ph.start_token_idx ph.end_segment_index
      ph.end_token_idx s t :=
    writesAddr_of_valid _ hcounts ht hlo hhi
  refine ⟨?_, ?_, ?_, ?_⟩
  · show mapGet (buildHighlightMap st.highlights (st.pendingHighlights ++ [ph])
      (chapterSegments st.chapter)) (getTokenKey s t) = some ph.style_category
    rw [buildHighlightMap_eq_foldSpecs, processedSpecs_append_pending]
    exact mapGet_foldSpecs_last _ _ (specOfPending ph) [] s t hw
  · show (mapGet (buildHighlightMap
      (st.highlights ++ [confirmedFromServer ph resultId resultStyle])
      (st.pendingHighlights ++ [ph]) (chapterSegments st.chapter))
      (getTokenKey s t)).isSome
    rw [buildHighlightMap_eq_foldSpecs, processedSpecs_append_pending]
    rw [mapGet_foldSpecs_last _ _ (specOfPending ph) [] s t hw]
    rfl
  · show (mapGet (buildHighlightMap
      (st.highlights ++ [confirmedFromServer ph resultId resultStyle])
      ((st.pendingHighlights ++ [ph]).filter (fun q => q.tempId != ph.tempId))
      (chapterSegments st.chapter)) (getTokenKey s t)).isSome
    rw [buildHighlightMap_eq_foldSpecs]
    apply mapGet_foldSpecs_isSome
    refine ⟨specOfConfirmed (confirmedFromServer ph resultId resultStyle), ?_, hw⟩
    apply List.mem_append_left
    exact List.mem_map_of_mem specOfConfirmed
      (List.mem_append_right _ (List.mem_singleton.2 rfl))
  · intro hno
    show mapGet (buildHighlightMap st.highlights
      ((st.pendingHighlights ++ [ph]).filter (fun q => q.tempId != ph.tempId))
      (chapterSegments st.chapter)) (getTokenKey s t) = none
    rw [pending_filter_fresh st.pendingHighlights ph hfresh,
      buildHighlightMap_eq_foldSpecs]
    rw [mapGet_foldSpecs_congr _ _ _ []]
    · rfl
    · intro r hr s' t' hw' hk
      obtain ⟨hs', ht'⟩ := getTokenKey_inj hk
      subst hs'; subst ht'
      exact hno r hr (writesAddr_lex _ hw')

def c4Chapter : ChapterResponse := ⟨0, c1Segments, some []⟩

def c4State : ReaderState :=
  ⟨some c4Chapter, [], [], buildHighlightMap [] [] (some c1Segments)⟩

def c4Pending : PendingHighlight :=
  ⟨"temp-1".data, 0, 3, 1, 2, "yellow".data, "book".data, 0, "xx".data⟩

/-- C4, witness at the concrete address `(0,3)` of the §8 chapter. -/
theorem c4_witness :
    mapGet (addHighlightOptimistic c4Pending c4State).highlightMap (getTokenKey 0 3)
      = some "yellow".data :=
  (c4_optimistic_lifecycle c4State c4Pending 42 "yellow".data c4Chapter
    (List.replicate 5 (mkToken 'x')) 0 3 rfl (by decide) (by decide) (by decide)
    (by decide) (by decide)).1

/-! ## C5: optimistic delete without rollback -/

/-- C5: `handleDeleteHighlight` removes the highlight from the confirmed
set before issuing the delete request (the trace's optimistic state already
has it filtered out, and addresses covered by no remaining range are gone
from the index), and a failed request is settled exactly like a successful
one — the removal is never rolled back. -/
theorem c5_delete_no_rollback (id : Nat) (st : ReaderState) :
    (handleDeleteHighlight id st).optimisticState.highlights
        = st.highlights.filter (fun h => h.id != id) ∧
    (handleDeleteHighlight id st).request = id ∧
    settleDelete (handleDeleteHighlight id st) true
        = settleDelete (handleDeleteHighlight id st) false ∧
    settleDelete (handleDeleteHighlight id st) false
        = (handleDeleteHighlight id st).optimisticState ∧
    (∀ s t, (∀ r ∈ processedSpecs (st.highlights.filter (fun h => h.id != id))
        st.pendingHighlights, ¬ specCovers r s t) →
      mapGet (handleDeleteHighlight id st).optimisticState.highlightMap
        (getTokenKey s t) = none) := by
  refine ⟨rfl, rfl, rfl, rfl, ?_⟩
  intro s t hno
  show mapGet (buildHighlightMap (st.highlights.filter (fun h => h.id != id))
    st.pendingHighlights (chapterSegments st.chapter)) (getTokenKey s t) = none
  rw [buildHighlightMap_eq_foldSpecs]
  rw [mapGet_foldSpecs_congr _ _ _ []]
  · rfl
  · intro r hr s' t' hw' hk
    obtain ⟨hs', ht'⟩ := getTokenKey_inj hk
    subst hs'; subst ht'
    exact hno r hr (writesAddr_lex _ hw')

def c5State : ReaderState :=
  ⟨some c4Chapter, [c1Highlight], [],
    buildHighlightMap [c1Highlight] [] (some c1Segments)⟩

/-- C5, witness: deleting the only highlight leaves address `(0,3)` with no
index entry. -/
theorem c5_witness :
    mapGet (handleDeleteHighlight 1 c5State).optimisticState.highlightMap
      (getTokenKey 0 3) = none :=
  (c5_delete_no_rollback 1 c5State).2.2.2.2 0 3 (by decide)

/-! ## C10: chapter change disposes of pending highlights -/

/-- C10: after `setChapter` the pending set is empty and the index is
rebuilt from the new chapter's confirmed highlights with an empty pending
list, so no in-flight optimistic highlight survives a chapter change. -/
theorem c10_setChapter_resets_pending (st : ReaderState)
    (chapter : Option ChapterResponse) :
    (setChapter chapter st).pendingHighlights = [] ∧
    (setChapter chapter st).highlights = chapterHighlights chapter ∧
    (setChapter chapter st).highlightMap
        = buildHighlightMap (chapterHighlights chapter) [] (chapterSegments chapter) :=
  ⟨rfl, rfl, rfl⟩

/-! ## Context-window extraction (ReaderSidebar, part of the AI tab)

Constants and helpers from the top of the sidebar module. -/

def MAX_CONTEXT_CHARS : Nat := 1200
def CONTEXT_SEGMENT_DEPTH : Nat := 2

/-- `String.prototype.trim`. -/
def jstrTrim (l : JStr) : JStr :=
  ((l.dropWhile Char.isWhitespace).reverse.dropWhile Char.isWhitespace).reverse

/-- `stringifySegment`: surface forms joined with a space before every
gap-flagged token except the segment's first token. -/
def stringifySegment (segment : ContentSegment) : JStr :=
  match segment with
  | ContentSegment.text (some tokens) =>
    (tokens.enum.map (fun it =>
      (if it.2.gap ∧ 0 < it.1 then [' '] else []) ++ it.2.s)).flatten
  | _ => []

/-- `splitIntoSentences`, accumulator form: walk the text, closing a
sentence after `。！？」` (absorbing a following `」`/`』`), trimming each
sentence, and keeping a trailing unterminated sentence when non-empty. -/
def splitIntoSentencesAux : List Char → JStr → List JStr
  | [], current => if jstrTrim current ≠ [] then [jstrTrim current] else []
  | c :: rest, current =>
    let current' := current ++ [c]
    if c = '。' ∨ c = '！' ∨ c = '？' ∨ c = '」' then
      match rest with
      | c2 :: rest2 =>
        if c2 = '」' ∨ c2 = '』' then
          jstrTrim (current' ++ [c2]) :: splitIntoSentencesAux rest2 []
        else
          jstrTrim current' :: splitIntoSentencesAux (c2 :: rest2) []
      | [] => [jstrTrim current']
    else splitIntoSentencesAux rest current'

def splitIntoSentences (text : JStr) : List JStr :=
  (splitIntoSentencesAux text []).filter (fun s => s.length > 0)

/-- Backward expansion loop of `buildContextFromSentences`.  `i` encodes
the JavaScript `preIdx` as `preIdx + 1` (so `i = 0` is `preIdx < 0`),
`plen` is `preSentences.length`, `rd` the remaining sentence depth. -/
def preExpand (sentences : List JStr) (maxChars : Nat) :
    Nat → Nat → Nat → JStr → JStr
  | _, _, 0, combined => combined
  | 0, _, _ + 1, combined => combined
  | i + 1, plen, rd + 1, combined =>
    match sentences.get? i with
    | none => combined
    | some sentence =>
      if combined.length + sentence.length + plen > maxChars then combined
      else preExpand sentences maxChars i (plen + 1) rd (sentence ++ ' ' :: combined)

/-- Forward expansion loop of `buildContextFromSentences`. -/
def postExpand (sentences : List JStr) (maxChars : Nat) :
    Nat → Nat → JStr → JStr
  | _, 0, combined => combined
  | postIdx, rd + 1, combined =>
    match sentences.get? postIdx with
    | none => combined
    | some sentence =>
      if combined.length + sentence.length + 1 > maxChars then combined
      else postExpand sentences maxChars (postIdx + 1) rd (combined ++ ' ' :: sentence)

/-- `buildContextFromSentences`: take the target sentences, truncate to the
budget if they already reach it, otherwise expand backward then forward and
trim.  (`Math.max(0, ·)` on the start index is the identity on `Nat`.) -/
def buildContextFromSentences (sentences : List JStr)
    (targetStartSentenceIndex targetEndSentenceIndex maxChars sentenceDepth : Nat) :
    JStr :=
  let startIdx := targetStartSentenceIndex
  let endIdx := min (sentences.length - 1) targetEndSentenceIndex
  let targetSentences := (sentences.drop startIdx).take (endIdx + 1 - startIdx)
  let combined := targetSentences.flatten
  if combined.length ≥ maxChars then combined.take maxChars
  else
    let combined := preExpand sentences maxChars startIdx 0 sentenceDepth combined
    let combined := postExpand sentences maxChars (endIdx + 1) sentenceDepth combined
    jstrTrim combined

/-- `String.prototype.indexOf` of `tgt`, scanning from position `i`. -/
def jsIndexOfAux (tgt : List Char) : List Char → Nat → Option Nat
  | [], i => if tgt.isPrefixOf ([] : List Char) then some i else none
  | c :: rest, i =>
    if tgt.isPrefixOf (c :: rest) then some i else jsIndexOfAux tgt rest (i + 1)

/-- `text.indexOf(tgt)`: `some` of the first occurrence, `none` for `-1`. -/
def jsIndexOf (text tgt : JStr) : Option Nat := jsIndexOfAux tgt text 0

/-- The sentence-locating loop for the start of the target: first sentence
index `i` with `pos ≤ p < pos + sentence.length`, positions advancing by
`sentence.length + 1`; `none` when the loop falls through (the caller then
keeps the default `0`). -/
def findSentIdxStart : List JStr → Nat → Nat → Nat → Option Nat
  | [], _, _, _ => none
  | sentence :: rest, p, pos, i =>
    if pos ≤ p ∧ p < pos + sentence.length then some i
    else findSentIdxStart rest p (pos + sentence.length + 1) (i + 1)

/-- Same for the end of the target, with `pos ≤ p ≤ pos + sentence.length`. -/
def findSentIdxEnd : List JStr → Nat → Nat → Nat → Option Nat
  | [], _, _, _ => none
  | sentence :: rest, p, pos, i =>
    if pos ≤ p ∧ p ≤ pos + sentence.length then some i
    else findSentIdxEnd rest p (pos + sentence.length + 1) (i + 1)

def isTextSegment : ContentSegment → Bool
  | ContentSegment.text _ => true
  | ContentSegment.image => false

/-- Step 1 of `collectHighlightText`: reconstruct the target text from the
tokens covered by the highlight (space before a gap-flagged token unless it
is the very first token of the range; non-text/missing segments and missing
or empty tokens are skipped). -/
def extractTarget (h : ChapterHighlightData) (segs : List ContentSegment) : JStr :=
  ((List.range' h.start_segment_index
      (h.end_segment_index + 1 - h.start_segment_index)).map (fun s =>
    match segs.get? s with
    | some (ContentSegment.text (some toks)) =>
      let startT := if s = h.start_segment_index then h.start_token_idx else 0
      let endT := if s = h.end_segment_index then h.end_token_idx else toks.length - 1
      ((List.range' startT (endT + 1 - startT)).map (fun t =>
        match toks.get? t with
        | some token =>
          if token.s ≠ [] then
            (if token.gap ∧ ¬(s = h.start_segment_index ∧ t = startT) then [' ']
             else []) ++ token.s
          else []
        | none => [])).flatten
    | _ => [])).flatten

/-- The flattened text of segment `s` when it exists and is a text segment. -/
def contextSegmentAt (segs : List ContentSegment) (s : Nat) : Option JStr :=
  match segs.get? s with
  | some seg => if isTextSegment seg then some (stringifySegment seg) else none
  | none => none

/-- Step 2 of `collectHighlightText`: up to `CONTEXT_SEGMENT_DEPTH` text
segments before the range, the range's own segments, and up to
`CONTEXT_SEGMENT_DEPTH` after, flattened to plain text. -/
def contextFullText (h : ChapterHighlightData) (segs : List ContentSegment) : JStr :=
  let lo := h.start_segment_index - CONTEXT_SEGMENT_DEPTH
  let pre := (List.range' lo (h.start_segment_index - lo)).filterMap
    (contextSegmentAt segs)
  let anchor := (List.range' h.start_segment_index
    (h.end_segment_index + 1 - h.start_segment_index)).filterMap
    (contextSegmentAt segs)
  let hi := min segs.length (h.end_segment_index + 1 + CONTEXT_SEGMENT_DEPTH)
  let post := (List.range' (h.end_segment_index + 1)
    (hi - (h.end_segment_index + 1))).filterMap (contextSegmentAt segs)
  (pre ++ anchor ++ post).flatten

/-- `collectHighlightText`: target text plus a sentence-bounded context.
When the target text cannot be located by substring search the sentence
indices stay at their `0` defaults. -/
def collectHighlightText (highlights : List ChapterHighlightData)
    (chapter : Option ChapterResponse) (highlightId : Nat) : JStr × JStr :=
  match highlights.find? (fun h => h.id == highlightId), chapter with
  | some highlight, some ch =>
    let targetText := extractTarget highlight ch.segments
    let fullText := contextFullText highlight ch.segments
    let sentences := splitIntoSentences fullText
    if sentences.length = 0 then (targetText, [])
    else
      match jsIndexOf fullText targetText with
      | some startPos =>
        let tsIdx := (findSentIdxStart sentences startPos 0 0).getD 0
        let teIdx := (findSentIdxEnd sentences (startPos + targetText.length) 0 0).getD 0
        (targetText, buildContextFromSentences sentences tsIdx teIdx MAX_CONTEXT_CHARS 3)
      | none =>
        (targetText, buildContextFromSentences sentences 0 0 MAX_CONTEXT_CHARS 3)
  | _, _ => ([], [])

/-! ## C2: the context character budget -/

theorem length_dropWhile_le (p : Char → Bool) (l : List Char) :
    (l.dropWhile p).length ≤ l.length := by
  induction l with
  | nil => simp
  | cons c l ih =>
    rw [List.dropWhile_cons]
    split
    · exact Nat.le_trans ih (Nat.le_succ _)
    · simp

theorem jstrTrim_length_le (l : JStr) : (jstrTrim l).length ≤ l.length := by
  unfold jstrTrim
  rw [List.length_reverse]
  calc ((l.dropWhile Char.isWhitespace).reverse.dropWhile Char.isWhitespace).length
      ≤ (l.dropWhile Char.isWhitespace).reverse.length :=
        length_dropWhile_le _ _
    _ = (l.dropWhile Char.isWhitespace).length := List.length_reverse _
    _ ≤ l.length := length_dropWhile_le _ _

theorem preExpand_length_le (sentences : List JStr) (maxChars : Nat) :
    ∀ (rd i plen : Nat) (combined : JStr),
      combined.length ≤ maxChars + (if plen = 0 then 0 else 1) →
      (preExpand sentences maxChars i plen rd combined).length ≤ maxChars + 1 := by
  intro rd
  induction rd with
  | zero =>
    intro i plen combined hc
    have : preExpand sentences maxChars i plen 0 combined = combined := by
      cases i <;> rfl
    rw [this]
    split_ifs at hc <;> omega
  | succ rd ih =>
    intro i plen combined hc
    cases i with
    | zero =>
      have : preExpand sentences maxChars 0 plen (rd + 1) combined = combined := rfl
      rw [this]
      split_ifs at hc <;> omega
    | succ j =>
      rw [preExpand]
      cases hget : sentences.get? j with
      | none =>
        dsimp only
        split_ifs at hc <;> omega
      | some sentence =>
        dsimp only
        split_ifs with hcond
        · split_ifs at hc <;> omega
        · apply ih
          have hlen : (sentence ++ ' ' :: combined).length
              = sentence.length + combined.length + 1 := by
            simp [List.length_append]
            omega
          rw [hlen]
          split_ifs at hc with hplen
          · subst hplen
            simp only [Nat.add_zero] at hcond
            simp only [if_neg (Nat.succ_ne_zero 0)]
            omega
          · simp only [if_neg (Nat.succ_ne_zero plen)]
            omega

theorem postExpand_length_le (sentences : List JStr) (maxChars : Nat) :
    ∀ (rd postIdx : Nat) (combined : JStr),
      (postExpand sentences maxChars postIdx rd combined).length
        ≤ max combined.length maxChars := by
  intro rd
  induction rd with
  | zero =>
    intro postIdx combined
    exact Nat.le_max_left _ _
  | succ rd ih =>
    intro postIdx combined
    rw [postExpand]
    cases hget : sentences.get? postIdx with
    | none => exact Nat.le_max_left _ _
    | some sentence =>
      dsimp only
      split_ifs with hcond
      · exact Nat.le_max_left _ _
      · have := ih (postIdx + 1) (combined ++ ' ' :: sentence)
        have hlen : (combined ++ ' ' :: sentence).length
            = combined.length + sentence.length + 1 := by
          simp [List.length_append]
          omega
        rw [hlen] at this
        omega

set_option maxRecDepth 40000 in
/-- C2, counterexample: with the configured budget of 1200, a target
sentence of 1199 characters preceded by a 1-character sentence yields a
context of 1201 characters — the backward-expansion length check counts
`preSentences.length` instead of the one space actually inserted, so the
budget is exceeded by one. -/
theorem c2_counterexample :
    1200 < (buildContextFromSentences [['a'], List.replicate 1199 'b']
      1 1 1200 3).length := by
  decide

/-- C2, amended: for every sentence list, target sentence index pair,
budget and depth, the context built by `buildContextFromSentences` has
length at most the budget **plus one** (the single-character overshoot of
the first backward expansion step); and when the target sentences alone
already reach the budget the result is truncated to exactly the budget. -/
theorem c2_context_budget (sentences : List JStr) (tsi tei maxChars depth : Nat) :
    (buildContextFromSentences sentences tsi tei maxChars depth).length
        ≤ maxChars + 1 ∧
      (maxChars ≤ ((sentences.drop tsi).take
          (min (sentences.length - 1) tei + 1 - tsi)).flatten.length →
        (buildContextFromSentences sentences tsi tei maxChars depth).length
          = maxChars) := by
  unfold buildContextFromSentences
  dsimp only
  split_ifs with hc
  · constructor
    · rw [List.length_take]
      omega
    · intro _
      rw [List.length_take]
      omega
  · constructor
    · have hpre := preExpand_length_le sentences maxChars depth tsi 0
        ((sentences.drop tsi).take (min (sentences.length - 1) tei + 1 - tsi)).flatten
        (by simp only [if_pos rfl]; omega)
      have hpost := postExpand_length_le sentences maxChars depth
        (min (sentences.length - 1) tei + 1)
        (preExpand sentences maxChars tsi 0 depth
          ((sentences.drop tsi).take (min (sentences.length - 1) tei + 1 - tsi)).flatten)
      have htrim := jstrTrim_length_le (postExpand sentences maxChars
        (min (sentences.length - 1) tei + 1) depth
        (preExpand sentences maxChars tsi 0 depth
          ((sentences.drop tsi).take
            (min (sentences.length - 1) tei + 1 - tsi)).flatten))
      omega
    · intro h
      omega

/-- C2, witness for the truncation clause: a 2-character target sentence
against a budget of 1 is cut to exactly 1 character. -/
theorem c2_witness :
    (buildContextFromSentences [['a', 'b']] 0 0 1 3).length = 1 :=
  (c2_context_budget [['a', 'b']] 0 0 1 3).2 (by decide)

/-! ## C8: context extraction when the target text cannot be located -/

def c8Seg0 : ContentSegment := ContentSegment.text (some [⟨"あ。".data, false⟩])
def c8Seg1 : ContentSegment := ContentSegment.text (some [⟨"い。".data, true⟩])
def c8Chapter : ChapterResponse := ⟨0, [c8Seg0, c8Seg1], some []⟩

/-- A cross-segment highlight whose second segment starts with a
gap-flagged token: the reconstructed target gets a space that the
flattened context does not have, so `indexOf` fails. -/
def c8Highlight : ChapterHighlightData := ⟨1, 0, 0, 1, 0, "yellow".data⟩

/-- C8, counterexample: the substring search fails, yet the returned
context is **not** empty — it is the context built around sentence 0. -/
theorem c8_counterexample :
    jsIndexOf (contextFullText c8Highlight c8Chapter.segments)
        (extractTarget c8Highlight c8Chapter.segments) = none ∧
      (collectHighlightText [c8Highlight] (some c8Chapter) 1).2 ≠ [] := by
  decide

/-- C8, amended: when the substring search for the reconstructed target
fails, `collectHighlightText` still returns the reconstructed target text,
and the context is built with both sentence indices at their default `0`
(around the first sentence); the context is empty exactly when the
flattened surrounding text yields no sentences. -/
theorem c8_fallback_context (highlights : List ChapterHighlightData)
    (ch : ChapterResponse) (highlightId : Nat) (h : ChapterHighlightData)
    (hfind : highlights.find? (fun x => x.id == highlightId) = some h)
    (hidx : jsIndexOf (contextFullText h ch.segments)
      (extractTarget h ch.segments) = none) :
    collectHighlightText highlights (some ch) highlightId =
      (extractTarget h ch.segments,
        if (splitIntoSentences (contextFullText h ch.segments)).length = 0 then []
        else buildContextFromSentences
          (splitIntoSentences (contextFullText h ch.segments)) 0 0
          MAX_CONTEXT_CHARS 3) := by
  simp only [collectHighlightText, hfind]
  by_cases hlen : (splitIntoSentences (contextFullText h ch.segments)).length = 0
  · simp only [if_pos hlen]
  · simp only [if_neg hlen, hidx]

/-- C8, witness: the concrete gap-token chapter above. -/
theorem c8_witness :
    collectHighlightText [c8Highlight] (some c8Chapter) 1 =
      (extractTarget c8Highlight c8Chapter.segments,
        if (splitIntoSentences (contextFullText c8Highlight
            c8Chapter.segments)).length = 0 then []
        else buildContextFromSentences
          (splitIntoSentences (contextFullText c8Highlight c8Chapter.segments))
          0 0 MAX_CONTEXT_CHARS 3) :=
  c8_fallback_context [c8Highlight] c8Chapter 1 c8Highlight (by decide) (by decide)

/-! ## Position restoration (useScrollProgress.ts)

Pixel quantities are modelled as `ℚ`.  One invocation of `tryRestore`
(together with its requestAnimationFrame callback) consumes one layout
measurement: the container's scroll/client heights and the scroll offset
actually observed after assigning the target.  The returned boolean records
whether the invocation scheduled another `tryRestore` frame. -/

/-- `Math.abs` on rationals. -/
def qAbs (x : ℚ) : ℚ := if x < 0 then -x else x

/-- `Math.max` on rationals. -/
def qMax (a b : ℚ) : ℚ := if a ≤ b then b else a

/-- `Math.min` on rationals. -/
def qMin (a b : ℚ) : ℚ := if a ≤ b then a else b

structure LayoutMeas where
  scrollHeight : ℚ
  clientHeight : ℚ
  scrollTopAfterSet : ℚ
deriving DecidableEq

structure RestoreState where
  restored : Bool
  attempts : Nat
  lastSaved : ℚ
deriving DecidableEq

/-- `isRestoredRef = false`, `restoreAttempts = 0`,
`lastSavedPercentageRef = -1`. -/
def initRestoreState : RestoreState := ⟨false, 0, -1⟩

def MAX_RESTORE_ATTEMPTS : Nat := 50

/-- One `tryRestore` invocation (the clamped fraction `p` is fixed for the
chapter load). -/
def tryRestore (p : ℚ) (m : LayoutMeas) (st : RestoreState) :
    RestoreState × Bool :=
  if st.restored then (st, false)
  else
    let maxScrollTop := m.scrollHeight - m.clientHeight
    if maxScrollTop ≤ 0 then
      if st.attempts > 5 then
        ({ restored := true, attempts := st.attempts + 1, lastSaved := 0 }, false)
      else ({ st with attempts := st.attempts + 1 }, false)
    else
      let target := p * maxScrollTop
      let threshold := qMax 5 (maxScrollTop * (1 / 100))
      let diff := qAbs (m.scrollTopAfterSet - target)
      if diff < threshold then
        ({ st with restored := true, lastSaved := p }, false)
      else if st.attempts ≥ MAX_RESTORE_ATTEMPTS then
        ({ st with
            restored := true
            lastSaved := m.scrollTopAfterSet / maxScrollTop }, false)
      else ({ st with attempts := st.attempts + 1 }, true)

/-- Events hitting the restoration engine: a scheduled `tryRestore` frame
running against a measurement, or a `ResizeObserver` notification, which
resets the attempt counter and schedules a new `tryRestore`. -/
inductive LayoutEvent where
  | frame (m : LayoutMeas)
  | resize
deriving DecidableEq

def stepEvent (p : ℚ) (s : RestoreState × Bool) (e : LayoutEvent) :
    RestoreState × Bool :=
  match e with
  | LayoutEvent.resize => ({ s.1 with attempts := 0 }, true)
  | LayoutEvent.frame m => if s.2 then tryRestore p m s.1 else s

/-- Run the engine over an event list, starting from the initial state with
the first `tryRestore` call pending. -/
def runEvents (p : ℚ) (es : List LayoutEvent) : RestoreState × Bool :=
  es.foldl (stepEvent p) (initRestoreState, true)

/-- The pure retry chain: `n` consecutive `tryRestore` frames with no
resize notifications, the `k`-th frame measuring `ms k`. -/
def runChain (p : ℚ) (ms : Nat → LayoutMeas) : Nat → RestoreState × Bool
  | 0 => (initRestoreState, true)
  | n + 1 =>
    let s := runChain p ms n
    if s.2 then tryRestore p (ms n) s.1 else s

theorem c7_zero_extent_step :
    runEvents (1 / 2) [LayoutEvent.frame ⟨0, 0, 0⟩]
      = (⟨false, 1, -1⟩, false) := by
  show stepEvent (1 / 2) (initRestoreState, true) (LayoutEvent.frame ⟨0, 0, 0⟩) = _
  norm_num [stepEvent, tryRestore, initRestoreState]

theorem c7_pair_fixpoint :
    stepEvent (1 / 2) (stepEvent (1 / 2) (initRestoreState, true)
        (LayoutEvent.frame ⟨2000, 1000, 0⟩)) LayoutEvent.resize
      = (initRestoreState, true) := by
  norm_num [stepEvent, tryRestore, initRestoreState, qAbs, qMax,
    MAX_RESTORE_ATTEMPTS]

theorem c7_reset_loop (k : Nat) :
    runEvents (1 / 2) (List.flatten (List.replicate k
        [LayoutEvent.frame ⟨2000, 1000, 0⟩, LayoutEvent.resize]))
      = (initRestoreState, true) := by
  induction k with
  | zero => rfl
  | succ k ih =>
    rw [List.replicate_succ, List.flatten_cons]
    show List.foldl (stepEvent (1 / 2)) (initRestoreState, true) (_ ++ _) = _
    rw [List.foldl_append]
    have h2 : List.foldl (stepEvent (1 / 2)) (initRestoreState, true)
        [LayoutEvent.frame ⟨2000, 1000, 0⟩, LayoutEvent.resize]
        = (initRestoreState, true) := c7_pair_fixpoint
    rw [h2]
    exact ih

/-- C7, counterexample: the engine does **not** always reach Restored.
With a content that never becomes scrollable (extent `0`) the single
scheduled frame consumes itself without rescheduling and without marking
restoration complete — the resulting configuration is a fixpoint of further
frames with `restored = false`.  And with a layout that never stops
resizing, the resize handler resets the attempt counter each time, so after
120 events (60 frame/resize pairs) the counter has never reached the cap
and the engine is still not Restored. -/
theorem c7_counterexample :
    (runEvents (1 / 2) [LayoutEvent.frame ⟨0, 0, 0⟩]).1.restored = false ∧
    (runEvents (1 / 2) [LayoutEvent.frame ⟨0, 0, 0⟩]).2 = false ∧
    stepEvent (1 / 2) (runEvents (1 / 2) [LayoutEvent.frame ⟨0, 0, 0⟩])
        (LayoutEvent.frame ⟨0, 0, 0⟩)
      = runEvents (1 / 2) [LayoutEvent.frame ⟨0, 0, 0⟩] ∧
    (runEvents (1 / 2) (List.flatten (List.replicate 60
        [LayoutEvent.frame ⟨2000, 1000, 0⟩, LayoutEvent.resize]))).1.restored
      = false := by
  refine ⟨?_, ?_, ?_, ?_⟩
  · rw [c7_zero_extent_step]
  · rw [c7_zero_extent_step]
  · rw [c7_zero_extent_step]
    rfl
  · rw [c7_reset_loop 60]
    rfl

theorem restored_mono (p : ℚ) (ms : Nat → LayoutMeas) (n : Nat)
    (h : (runChain p ms n).1.restored = true) :
    (runChain p ms (n + 1)).1.restored = true := by
  have hstep : runChain p ms (n + 1) =
      if (runChain p ms n).2 then tryRestore p (ms n) (runChain p ms n).1
      else runChain p ms n := rfl
  rw [hstep]
  split_ifs with hs
  · rw [tryRestore, if_pos h]
    exact h
  · exact h

theorem not_restored_attempts (p : ℚ) (ms : Nat → LayoutMeas)
    (hpos : ∀ k, 0 < (ms k).scrollHeight - (ms k).clientHeight) :
    ∀ n, (runChain p ms n).1.restored = false →
      (runChain p ms n).1.attempts = n ∧ (runChain p ms n).2 = true ∧ n ≤ 50 := by
  intro n
  induction n with
  | zero => intro _; exact ⟨rfl, rfl, by omega⟩
  | succ n ih =>
    intro h
    have hnR : (runChain p ms n).1.restored = false := by
      rcases Bool.eq_false_or_eq_true (runChain p ms n).1.restored with h0 | h0
      · rw [restored_mono p ms n h0] at h
        exact absurd h (by simp)
      · exact h0
    obtain ⟨ha, hs, hle⟩ := ih hnR
    have hstep : runChain p ms (n + 1) = tryRestore p (ms n) (runChain p ms n).1 := by
      have : runChain p ms (n + 1) =
          if (runChain p ms n).2 then tryRestore p (ms n) (runChain p ms n).1
          else runChain p ms n := rfl
      rw [this, if_pos hs]
    rw [hstep] at h ⊢
    rw [tryRestore] at h ⊢
    have hres : ¬((runChain p ms n).1.restored = true) := by
      rw [hnR]; exact Bool.false_ne_true
    have hext : ¬((ms n).scrollHeight - (ms n).clientHeight ≤ 0) :=
      not_le.2 (hpos n)
    rw [if_neg hres] at h ⊢
    rw [if_neg hext] at h ⊢
    dsimp only at h ⊢
    split_ifs at h ⊢ with h1 h2
    refine ⟨?_, rfl, ?_⟩
    · show (runChain p ms n).1.attempts + 1 = n + 1
      omega
    · simp only [MAX_RESTORE_ATTEMPTS] at h2
      omega

/-- C7, amended: in a run in which no resize notification intervenes and
every frame measures a positive scrollable extent, the retry chain reaches
the terminal Restored state within 51 frames — the attempt counter is
hard-capped at `MAX_RESTORE_ATTEMPTS = 50` and on cap exhaustion the
engine marks restoration complete, accepting the resulting position.  (As
`c7_counterexample` shows, a run whose extent stays non-positive stalls
un-Restored, and resize notifications reset the counter, so the unqualified
claim fails.) -/
theorem c7_restoration_terminates (p : ℚ) (ms : Nat → LayoutMeas)
    (hpos : ∀ k, 0 < (ms k).scrollHeight - (ms k).clientHeight) :
    (runChain p ms 51).1.restored = true := by
  rcases Bool.eq_false_or_eq_true (runChain p ms 51).1.restored with h0 | h0
  · exact h0
  · obtain ⟨-, -, hle⟩ := not_restored_attempts p ms hpos 51 h0
    omega

/-- C7, witness: a layout of constant extent 1000 whose observed offset
never moves; the chain restores by cap exhaustion within 51 frames. -/
theorem c7_witness :
    (runChain (1 / 2) (fun _ => ⟨2000, 1000, 0⟩) 51).1.restored = true :=
  c7_restoration_terminates (1 / 2) (fun _ => ⟨2000, 1000, 0⟩)
    (fun _ => by norm_num)

/-! ## Progress flush (ContentCanvas.tsx)

`flushProgress` clears the pending debounce timer and, when a book and
chapter are loaded and the segment index is non-negative, issues one
`updateReadingProgress` request with a complete snapshot.  The layout
measurement (whether the segment element was found, its bounding-rect top
and the viewport height) is an explicit argument; the persistence service
is a last-write-wins register. -/

def DEFAULT_RESTORE_OFFSET : ℚ := 15 / 100

structure ProgressLayout where
  segmentElFound : Bool
  rectTop : ℚ
  viewportHeight : ℚ
deriving DecidableEq

/-- The payload of `updateReadingProgress`. -/
structure ProgressUpdate where
  current_chapter_index : Nat
  current_segment_index : Int
  current_segment_offset : Int
deriving DecidableEq, Repr

/-- The offset ratio: the segment top's relative viewport position clamped
to `[0,1]`, or the default offset when the segment element is missing. -/
def computeOffset (layout : ProgressLayout) : ℚ :=
  if layout.segmentElFound then
    qMin (qMax (layout.rectTop / layout.viewportHeight) 0) 1
  else DEFAULT_RESTORE_OFFSET

/-- One `flushProgress` call: the cleared timer and the issued write (if
any).  `Math.round(offsetRatio * 10000)` is `round` on `ℚ`. -/
def flushProgress (bookId : Option JStr) (chapter : Option ChapterResponse)
    (currentSegmentIndex : Int) (saveTimeout : Option Nat)
    (layout : ProgressLayout) : Option Nat × Option ProgressUpdate :=
  match bookId, chapter with
  | some _, some ch =>
    if currentSegmentIndex ≥ 0 then
      (none, some ⟨ch.index, currentSegmentIndex,
        round (computeOffset layout * 10000)⟩)
    else (none, none)
  | _, _ => (none, none)

/-- The position persistence register: a later complete snapshot replaces
the earlier one; a call that issued no write leaves it unchanged. -/
def applyWrite (persisted : Option ProgressUpdate) (w : Option ProgressUpdate) :
    Option ProgressUpdate :=
  match w with
  | some snap => some snap
  | none => persisted

/-- C9: two `flushProgress` calls in succession with no intervening change
to the recorded position (same book, chapter, segment index and layout, the
second call seeing the timer state left by the first) issue the same
complete snapshot, and the persisted value after both writes equals the
persisted value after the first alone — duplicate flushes are harmless. -/
theorem c9_flush_idempotent (bookId : Option JStr)
    (chapter : Option ChapterResponse) (currentSegmentIndex : Int)
    (saveTimeout : Option Nat) (layout : ProgressLayout)
    (persisted : Option ProgressUpdate) :
    (flushProgress bookId chapter currentSegmentIndex
        (flushProgress bookId chapter currentSegmentIndex saveTimeout layout).1
        layout).2
      = (flushProgress bookId chapter currentSegmentIndex saveTimeout layout).2 ∧
    applyWrite (applyWrite persisted
        (flushProgress bookId chapter currentSegmentIndex saveTimeout layout).2)
      (flushProgress bookId chapter currentSegmentIndex
        (flushProgress bookId chapter currentSegmentIndex saveTimeout layout).1
        layout).2
      = applyWrite persisted
          (flushProgress bookId chapter currentSegmentIndex saveTimeout layout).2 := by
  have h12 : (flushProgress bookId chapter currentSegmentIndex
      (flushProgress bookId chapter currentSegmentIndex saveTimeout layout).1
      layout).2
      = (flushProgress bookId chapter currentSegmentIndex saveTimeout layout).2 := by
    cases bookId <;> cases chapter <;> rfl
  refine ⟨h12, ?_⟩
  rw [h12]
  cases (flushProgress bookId chapter currentSegmentIndex saveTimeout layout).2 <;> rfl
